import Mathlib

/-!
Verification development for the credit-card-scraper repository
(`credit-card-scraper.py`).  The Python source is shallowly embedded:

* Python's `re` usage is embedded by a small backtracking regular-expression
  interpreter (`RE`) whose preference order matches CPython's `re.search`
  (leftmost starting position; greedy quantifiers; left-biased alternation);
  every pattern string of the source is transcribed into an `RE` value next
  to a comment quoting the original pattern.
* Python dicts holding card records become association lists
  (`Card := List (String × Option String)`) with dict-style insertion
  (overwrite keeps position, fresh keys are appended) and dict equality.
* The BeautifulSoup DOM becomes an inductive `Node` tree; elements are
  addressed by child-index paths so that parent / next-sibling navigation
  used by the source can be modelled.
* The one genuine runtime hazard on the HTML path
  (`next_text.strip()` when `next_sibling` is a tag, an `AttributeError`)
  is modelled with `Except Unit`.

All definitions are executable; concrete theorems are settled by `decide`.
-/

namespace Scraper

/-! ## Python-style string primitives (on `List Char` / `String`) -/

/-- Whitespace characters recognised by Python's `str.strip
` / `\s` (ASCII range, which covers every input in this development). -/
def pySpace (c : Char) : Bool :=
  c = ' ' || c = '\t' || c = '\n' || c = '\r' || c = '\x0b' || c = '\x0c'

/-- ASCII lowercasing, as `str.lower` acts on the ASCII inputs used here. -/
def lowChar (c : Char) : Char :=
  if 'A' ≤ c ∧ c ≤ 'Z' then Char.ofNat (c.toNat + 32) else c

/-- ASCII uppercasing (used for case-insensitive class membership). -/
def upChar (c : Char) : Char :=
  if 'a' ≤ c ∧ c ≤ 'z' then Char.ofNat (c.toNat - 32) else c

/-- `str.lower`. -/
def pyLower (s : String) : String := ⟨s.data.map lowChar⟩

/-- Drop leading Python whitespace. -/
def trimL (l : List Char) : List Char := l.dropWhile pySpace

/-- Drop trailing Python whitespace. -/
def trimR (l : List Char) : List Char := (l.reverse.dropWhile pySpace).reverse

/-- `str.strip()` on char lists. -/
def pstripL (l : List Char) : List Char := trimR (trimL l)

/-- `str.strip()`. -/
def pstrip (s : String) : String := ⟨pstripL s.data⟩

/-- Does `pat` occur at the start of `l`? -/
def headMatch : List Char → List Char → Bool
  | [], _ => true
  | _ :: _, [] => false
  | p :: ps, c :: cs => p = c && headMatch ps cs

/-- Python's `sub in s` substring test (char-list form). -/
def subInL (pat l : List Char) : Bool :=
  match l with
  | [] => headMatch pat []
  | _ :: cs => headMatch pat l || subInL pat cs

/-- Python's `sub in s` substring test. -/
def subIn (pat s : String) : Bool := subInL pat.data s.data

/-- `s.startswith(pre)` (char-list implementation, so that it evaluates
inside the kernel). -/
def pyStartsWith (s pre : String) : Bool := headMatch pre.data s.data

/-- `s.endswith(suf)`. -/
def pyEndsWith (s suf : String) : Bool :=
  headMatch suf.data.reverse s.data.reverse

/-! ## A backtracking regex interpreter matching CPython `re` semantics -/

/-- Character classes appearing in the source's patterns. -/
inductive CC where
  | wordc : CC                       -- `\w`
  | spacec : CC                      -- `\s`
  | digitc : CC                      -- `\d`
  | one : Char → CC                  -- a single literal char inside `[...]`
  | rng : Char → Char → CC           -- `a-z` style range
  | un : CC → CC → CC                -- union of class atoms
deriving Repr

/-- Membership in a character class. -/
def CC.mem : CC → Char → Bool
  | .wordc, c => c.isAlpha || c.isDigit || c = '_'
  | .spacec, c => pySpace c
  | .digitc, c => c.isDigit
  | .one a, c => a = c
  | .rng lo hi, c => lo ≤ c && c ≤ hi
  | .un a b, c => a.mem c || b.mem c

/-- Class membership under an optional IGNORECASE flag: the char matches if
it, its lowercase, or its uppercase form is in the class. -/
def CC.memCI (ci : Bool) (cc : CC) (c : Char) : Bool :=
  if ci then cc.mem c || cc.mem (lowChar c) || cc.mem (upChar c)
  else cc.mem c

/-- Literal char comparison under an optional IGNORECASE flag. -/
def charEq (ci : Bool) (a b : Char) : Bool :=
  if ci then lowChar a = lowChar b else a = b

/-- Regular expressions as used by the source.  Quantifiers only ever apply
to character classes in the source's patterns, which the syntax reflects
(`starC`/`plusC`); `grp` is the (unique per pattern) capturing group. -/
inductive RE where
  | eps : RE
  | ch : Char → RE
  | cls : CC → RE
  | opt : RE → RE                    -- greedy `?`
  | starC : CC → RE                  -- greedy `[...]*`
  | plusC : CC → RE                  -- greedy `[...]+`
  | cat : RE → RE → RE
  | alt : RE → RE → RE               -- left-biased `|`
  | grp : RE → RE                    -- `( ... )`, group 1
deriving Repr

/-- Length of the maximal run of class characters at the head of `s`. -/
def maxRun (ci : Bool) (cc : CC) : List Char → Nat
  | [] => 0
  | c :: cs => if cc.memCI ci c then maxRun ci cc cs + 1 else 0

/-- Try the continuation after dropping `j, j-1, …, 0` characters
(greedy order for `*`). -/
def tryDrops {α : Type} (s : List Char) (k : List Char → Option α) :
    Nat → Option α
  | 0 => k s
  | j + 1 => (k (s.drop (j + 1))).orElse fun _ => tryDrops s k j

/-- Try the continuation after dropping `j, j-1, …, 1` characters
(greedy order for `+`). -/
def tryDrops1 {α : Type} (s : List Char) (k : List Char → Option α) :
    Nat → Option α
  | 0 => none
  | j + 1 => (k (s.drop (j + 1))).orElse fun _ => tryDrops1 s k j

/-- Backtracking matcher in continuation style.  `cap` is the value of
group 1 captured so far; the first success in CPython preference order is
returned. -/
def RE.m {α : Type} (ci : Bool) :
    RE → List Char → Option (List Char) →
    (List Char → Option (List Char) → Option α) → Option α
  | .eps, s, cap, k => k s cap
  | .ch c, s, cap, k =>
    match s with
    | [] => none
    | x :: rest => if charEq ci c x then k rest cap else none
  | .cls cc, s, cap, k =>
    match s with
    | [] => none
    | x :: rest => if cc.memCI ci x then k rest cap else none
  | .opt r, s, cap, k => (RE.m ci r s cap k).orElse fun _ => k s cap
  | .starC cc, s, cap, k => tryDrops s (fun s' => k s' cap) (maxRun ci cc s)
  | .plusC cc, s, cap, k => tryDrops1 s (fun s' => k s' cap) (maxRun ci cc s)
  | .cat a b, s, cap, k => RE.m ci a s cap (fun s' cap' => RE.m ci b s' cap' k)
  | .alt a b, s, cap, k => (RE.m ci a s cap k).orElse fun _ => RE.m ci b s cap k
  | .grp r, s, cap, k =>
    RE.m ci r s cap (fun s' _ => k s' (some (s.take (s.length - s'.length))))

/-- One anchored match attempt at the current position: returns
(consumed length, group-1 capture). -/
def matchAt (ci : Bool) (re : RE) (s : List Char) :
    Option (Nat × Option (List Char)) :=
  RE.m ci re s none (fun s' cap => some (s.length - s'.length, cap))

/-- `re.search` scan: leftmost starting position wins.  Returns
(start index, end index, group-1 capture). -/
def searchFrom (ci : Bool) (re : RE) :
    List Char → Nat → Option (Nat × Nat × Option (List Char))
  | [], i =>
    match matchAt ci re [] with
    | some (_, cap) => some (i, i, cap)
    | none => none
  | s@(_ :: rest), i =>
    match matchAt ci re s with
    | some (len, cap) => some (i, i + len, cap)
    | none => searchFrom ci re rest (i + 1)

/-- Does `re.search(pattern, s)` succeed? -/
def reTest (ci : Bool) (re : RE) (s : String) : Bool :=
  (searchFrom ci re s.data 0).isSome

/-- `re.search(pattern, s)` followed by `.group(1)`; `none` when there is
no match.  (Every captured group of the source is a mandatory component of
its pattern, so a match always carries a capture.) -/
def reGroup1 (ci : Bool) (re : RE) (s : String) : Option String :=
  match searchFrom ci re s.data 0 with
  | some (_, _, some cap) => some ⟨cap⟩
  | some (_, _, none) => none
  | none => none

/-- `re.split` worker; `fuel` bounds the number of splits (the split
pattern used by the source can never match the empty string, and a
non-advancing match stops the scan). -/
def splitGo (re : RE) : List Char → Nat → List (List Char)
  | s, 0 => [s]
  | s, fuel + 1 =>
    match searchFrom false re s 0 with
    | none => [s]
    | some (a, b, _) =>
      if b ≤ a then [s]
      else s.take a :: splitGo re (s.drop b) fuel

/-- `re.split(pattern, s)`. -/
def reSplit (re : RE) (s : String) : List String :=
  (splitGo re s.data (s.data.length + 1)).map fun l => ⟨l⟩

/-- `re.sub` worker (constant replacement), leftmost non-overlapping. -/
def subGo (re : RE) (rep : List Char) : List Char → Nat → List Char
  | s, 0 => s
  | s, fuel + 1 =>
    match searchFrom false re s 0 with
    | none => s
    | some (a, b, _) =>
      if b ≤ a then s
      else s.take a ++ rep ++ subGo re rep (s.drop b) fuel

/-- `re.sub(pattern, rep, s)` with a constant replacement string. -/
def reSub (re : RE) (rep : String) (s : String) : String :=
  ⟨subGo re rep.data s.data (s.data.length + 1)⟩

/-- Literal string as a regex. -/
def lit (s : String) : RE :=
  s.data.foldr (fun c r => RE.cat (RE.ch c) r) RE.eps

/-- Left-biased alternation of a pattern list. -/
def altL : List RE → RE
  | [] => RE.eps
  | [r] => r
  | r :: rest => RE.alt r (altL rest)

/-! ## Card records (Python dicts) -/

/-- A card record: a Python dict from field name to value, where a `none`
value is the explicit null marker (`None`) the PDF path writes.  Insertion
order is kept, keys are unique (as in a dict). -/
abbrev Card := List (String × Option String)

/-- Dict lookup: `some v` when the key is present (bound to `v`, which is
itself `none` for the null marker), `none` when the key is absent. -/
def Card.find : Card → String → Option (Option String)
  | [], _ => none
  | (k', v') :: rest, k => if k' = k then some v' else Card.find rest k

/-- `key in card`. -/
def Card.hasKey (c : Card) (k : String) : Bool := (c.find k).isSome

/-- Dict assignment `card[k] = v`: overwrite keeps position, a fresh key is
appended. -/
def Card.insert : Card → String → Option String → Card
  | [], k, v => [(k, v)]
  | (k', v') :: rest, k, v =>
    if k' = k then (k', v) :: rest else (k', v') :: Card.insert rest k v

/-- Python truthiness of `card.get(k)`: the key is present, bound to a
non-`None`, non-empty string. -/
def Card.getTruthy (c : Card) (k : String) : Bool :=
  match c.find k with
  | some (some v) => v ≠ ""
  | _ => false

/-- Python `dict.__eq__` between two (unique-key) dicts: equal exactly when
each binding of one is a binding of the other. -/
def cardEquiv (a b : Card) : Bool :=
  (a.all fun kv => b.find kv.1 == some kv.2) &&
    (b.all fun kv => a.find kv.1 == some kv.2)

instance {ε α : Type} [DecidableEq ε] [DecidableEq α] :
    DecidableEq (Except ε α) := fun a b =>
  match a, b with
  | .ok x, .ok y =>
    if h : x = y then isTrue (congrArg Except.ok h)
    else isFalse fun hh => h (Except.ok.inj hh)
  | .error x, .error y =>
    if h : x = y then isTrue (congrArg Except.error h)
    else isFalse fun hh => h (Except.error.inj hh)
  | .ok _, .error _ => isFalse fun hh => Except.noConfusion hh
  | .error _, .ok _ => isFalse fun hh => Except.noConfusion hh

/-! ## The PDF text extractor `_extract_cards_from_pdf_text`

Each pattern table below transcribes the corresponding Python list of
regex strings, in order; the original pattern is quoted in a comment. -/

/-- `\w` or `\s`, i.e. the class `[\w\s]`. -/
def wsC : CC := .un .wordc .spacec

/-- The class `[:\s]` (identical as a set to `[\s:]`). -/
def colonSpace : CC := .un (.one ':') .spacec

/-- `[:\s]*`. -/
def colonSpaceStar : RE := .starC colonSpace

/-- The class `[\w\s.,\d%]` used by the rewards/cashback/offers captures. -/
def rwC : CC := .un .wordc (.un .spacec (.un (.one '.') (.un (.one ',') (.un .digitc (.one '%')))))

/-- The class `[\s\w]`. -/
def swC : CC := .un .spacec .wordc

/-- The class `[₹$]`. -/
def curC : CC := .un (.one '₹') (.one '$')

/-- `r'credit card|platinum card|gold card|rewards card|buzz card|travel card'`
(the card-relevance test, run on the lowercased section). -/
def relevancePat : RE :=
  altL [lit "credit card", lit "platinum card", lit "gold card",
    lit "rewards card", lit "buzz card", lit "travel card"]

/-- `card_name_patterns` (all searched with `re.IGNORECASE`):
1. `r'([\w\s]+(?:Credit|Platinum|Gold|Rewards|Cashback|Signature|Infinite|World|Buzz|Travel)\s+Card)'`
2. `r'([A-Z][A-Za-z\s]+(?:CARD))'`
3. `r'([\w\s]+Card)'` -/
def cardNamePatterns : List RE :=
  [ .grp (.cat (.plusC wsC)
      (.cat (altL [lit "Credit", lit "Platinum", lit "Gold", lit "Rewards",
        lit "Cashback", lit "Signature", lit "Infinite", lit "World",
        lit "Buzz", lit "Travel"])
      (.cat (.plusC .spacec) (lit "Card")))),
    .grp (.cat (.cls (.rng 'A' 'Z'))
      (.cat (.plusC (.un (.rng 'A' 'Z') (.un (.rng 'a' 'z') .spacec)))
        (lit "CARD"))),
    .grp (.cat (.plusC wsC) (lit "Card")) ]

/-- `bank_patterns` (searched case-sensitively on the raw section):
`r'([\w\s]+Bank)'`, `r'([\w\s]+Financial)'`, `r'([\w\s]+Express)'`,
`r'(Axis)'`, `r'(ICICI)'`, `r'(HDFC)'`, `r'(SBI)'`, `r'(Citi)'`,
`r'(American Express)'`, `r'([\w\s]+Banking)'`. -/
def bankPatterns : List RE :=
  [ .grp (.cat (.plusC wsC) (lit "Bank")),
    .grp (.cat (.plusC wsC) (lit "Financial")),
    .grp (.cat (.plusC wsC) (lit "Express")),
    .grp (lit "Axis"), .grp (lit "ICICI"), .grp (lit "HDFC"),
    .grp (lit "SBI"), .grp (lit "Citi"), .grp (lit "American Express"),
    .grp (.cat (.plusC wsC) (lit "Banking")) ]

/-- The fee capture `([₹$]?[\d,]+(?:\.\d+)?)`. -/
def feeValue : RE :=
  .grp (.cat (.opt (.cls curC))
    (.cat (.plusC (.un .digitc (.one ',')))
      (.opt (.cat (.ch '.') (.plusC .digitc)))))

/-- `fee_patterns['joining_fee']`:
`r'joining fee[:\s]*([₹$]?[\d,]+(?:\.\d+)?)'`,
`r'joining[:\s]*(…)'`, `r'one[ -]?time fee[:\s]*(…)'`,
`r'enrollment fee[:\s]*(…)'`. -/
def joiningFeePatterns : List RE :=
  [ .cat (lit "joining fee") (.cat colonSpaceStar feeValue),
    .cat (lit "joining") (.cat colonSpaceStar feeValue),
    .cat (lit "one") (.cat (.opt (.cls (.un (.one ' ') (.one '-'))))
      (.cat (lit "time fee") (.cat colonSpaceStar feeValue))),
    .cat (lit "enrollment fee") (.cat colonSpaceStar feeValue) ]

/-- `fee_patterns['annual_fee']`:
`r'annual fee[:\s]*(…)'`, `r'annual[:\s]*(…)'`, `r'yearly fee[:\s]*(…)'`,
`r'renewal fee[:\s]*(…)'`. -/
def annualFeePatterns : List RE :=
  [ .cat (lit "annual fee") (.cat colonSpaceStar feeValue),
    .cat (lit "annual") (.cat colonSpaceStar feeValue),
    .cat (lit "yearly fee") (.cat colonSpaceStar feeValue),
    .cat (lit "renewal fee") (.cat colonSpaceStar feeValue) ]

/-- The free/nil/waived fallback pattern
`rf'{label}[\s:]*(?:free|nil|waived|zero)'` for a fee label. -/
def waivedPat (label : String) : RE :=
  .cat (lit label) (.cat (.starC colonSpace)
    (altL [lit "free", lit "nil", lit "waived", lit "zero"]))

/-- `rewards_patterns`:
`r'rewards?[:\s]*([\w\s.,\d%]+)'`, `r'reward points[:\s]*(…)'`,
`r'points[:\s]*(…)'`, `r'(\d+[xX][\s\w]+(?:on|for)[\s\w]+)'`,
`r'earn[\s\w]+(\d+%|\d+[xX][\s\w]+)'`, `r'miles[:\s]*(…)'`. -/
def rewardsPatterns : List RE :=
  [ .cat (lit "reward") (.cat (.opt (.ch 's')) (.cat colonSpaceStar (.grp (.plusC rwC)))),
    .cat (lit "reward points") (.cat colonSpaceStar (.grp (.plusC rwC))),
    .cat (lit "points") (.cat colonSpaceStar (.grp (.plusC rwC))),
    .grp (.cat (.plusC .digitc) (.cat (.cls (.un (.one 'x') (.one 'X')))
      (.cat (.plusC swC) (.cat (.alt (lit "on") (lit "for")) (.plusC swC))))),
    .cat (lit "earn") (.cat (.plusC swC)
      (.grp (.alt (.cat (.plusC .digitc) (.ch '%'))
        (.cat (.plusC .digitc) (.cat (.cls (.un (.one 'x') (.one 'X'))) (.plusC swC)))))),
    .cat (lit "miles") (.cat colonSpaceStar (.grp (.plusC rwC))) ]

/-- `cashback_patterns`:
`r'cashback[:\s]*([\w\s.,\d%]+)'`, `r'cash back[:\s]*(…)'`,
`r'(\d+%\s*cash\s*back)'`, `r'(cash\s*back\s*of\s*\d+%)'`,
`r'(earn\s*\d+%\s*cash)'`. -/
def cashbackPatterns : List RE :=
  [ .cat (lit "cashback") (.cat colonSpaceStar (.grp (.plusC rwC))),
    .cat (lit "cash back") (.cat colonSpaceStar (.grp (.plusC rwC))),
    .grp (.cat (.plusC .digitc) (.cat (.ch '%') (.cat (.starC .spacec)
      (.cat (lit "cash") (.cat (.starC .spacec) (lit "back")))))),
    .grp (.cat (lit "cash") (.cat (.starC .spacec) (.cat (lit "back")
      (.cat (.starC .spacec) (.cat (lit "of")
        (.cat (.starC .spacec) (.cat (.plusC .digitc) (.ch '%')))))))),
    .grp (.cat (lit "earn") (.cat (.starC .spacec)
      (.cat (.plusC .digitc) (.cat (.ch '%') (.cat (.starC .spacec) (lit "cash")))))) ]

/-- `offers_patterns`:
`r'offers?[:\s]*([\w\s.,\d%]+)'`, `r'benefits?[:\s]*(…)'`,
`r'welcome\s*offers?[:\s]*(…)'`, `r'bonus[:\s]*(…)'`,
`r'complimentary[:\s]*(…)'`, `r'free[:\s]*([\w\s.,\d%]+access)'`,
`r'([\d,]+ bonus points after spending)'`, `r'([\d,]+ welcome points)'`,
`r'(free [\w\s]+)'`. -/
def offersPatterns : List RE :=
  [ .cat (lit "offer") (.cat (.opt (.ch 's')) (.cat colonSpaceStar (.grp (.plusC rwC)))),
    .cat (lit "benefit") (.cat (.opt (.ch 's')) (.cat colonSpaceStar (.grp (.plusC rwC)))),
    .cat (lit "welcome") (.cat (.starC .spacec) (.cat (lit "offer")
      (.cat (.opt (.ch 's')) (.cat colonSpaceStar (.grp (.plusC rwC)))))),
    .cat (lit "bonus") (.cat colonSpaceStar (.grp (.plusC rwC))),
    .cat (lit "complimentary") (.cat colonSpaceStar (.grp (.plusC rwC))),
    .cat (lit "free") (.cat colonSpaceStar (.grp (.cat (.plusC rwC) (lit "access")))),
    .grp (.cat (.plusC (.un .digitc (.one ','))) (lit " bonus points after spending")),
    .grp (.cat (.plusC (.un .digitc (.one ','))) (lit " welcome points")),
    .grp (.cat (lit "free ") (.plusC wsC)) ]

/-- `r'travel[:\s]*([\w\s.,\d%]+)'`. -/
def travelPat : RE := .cat (lit "travel") (.cat colonSpaceStar (.grp (.plusC rwC)))

/-- `r'insurance[:\s]*([\w\s.,\d%]+)'`. -/
def insurancePat : RE := .cat (lit "insurance") (.cat colonSpaceStar (.grp (.plusC rwC)))

/-- `r'lounge[:\s]*([\w\s.,\d%]+)'`. -/
def loungePat : RE := .cat (lit "lounge") (.cat colonSpaceStar (.grp (.plusC rwC)))

/-- `r'foreign\s*transaction\s*fee[:\s]*([₹$]?[\d.,]+%?)'`. -/
def foreignFeePat : RE :=
  .cat (lit "foreign") (.cat (.starC .spacec) (.cat (lit "transaction")
    (.cat (.starC .spacec) (.cat (lit "fee") (.cat colonSpaceStar
      (.grp (.cat (.opt (.cls curC))
        (.cat (.plusC (.un .digitc (.un (.one '.') (.one ','))))
          (.opt (.ch '%'))))))))))

/-- The fee normalization applied to a captured fee value (source lines
412-419): `0`/`$0`/`₹0` become `$0`; a value without a leading currency
marker gets `$` prefixed; otherwise the value is kept as is. -/
def normalizeFee (feeVal : String) : String :=
  if feeVal = "0" ∨ feeVal = "$0" ∨ feeVal = "₹0" then "$0"
  else if !(pyStartsWith feeVal "$" || pyStartsWith feeVal "₹") then "$" ++ feeVal
  else feeVal

/-- First-match-wins over an ordered pattern list: `group(1)` of the first
pattern that matches (the `for pattern in …: if match: …; break` idiom). -/
def firstGroup (ci : Bool) (pats : List RE) (s : String) : Option String :=
  pats.findSome? fun p => reGroup1 ci p s

/-- One fee field: try the patterns in order on the lowercased section,
normalize the first capture; otherwise fall back to the
free/nil/waived/zero pattern, yielding `$0`. -/
def feeField (card : Card) (feeType : String) (pats : List RE)
    (label : String) (lowSection : String) : Card :=
  match firstGroup false pats lowSection with
  | some v => card.insert feeType (some (normalizeFee (pstrip v)))
  | none =>
    if reTest false (waivedPat label) lowSection then
      card.insert feeType (some "$0")
    else card

/-- Insert the explicit null marker when the field is still missing
(`if field not in card: card[field] = None`). -/
def nullFill (card : Card) (f : String) : Card :=
  if card.hasKey f then card else card.insert f none

/-- Capture cleanup used for rewards/cashback/offers:
`re.sub(r'\s+', ' ', text.strip())`. -/
def collapseWs (v : String) : String := reSub (.plusC .spacec) " " (pstrip v)

/-- The five fields that are explicitly null-filled when missing. -/
def nullFilledFields : List String :=
  ["rewards", "cashback", "offers", "joining_fee", "annual_fee"]

/-- Field extraction for one card-relevant PDF section, before the
null-fill pass. -/
def sectionFields (sec : String) : Card :=
  let low := pyLower sec
  let card : Card := []
  let card := match firstGroup true cardNamePatterns sec with
    | some v => card.insert "card_name" (some (pstrip v))
    | none => card
  let card := match firstGroup false bankPatterns sec with
    | some v => card.insert "issuing_bank" (some (pstrip v))
    | none => card
  let card := feeField card "joining_fee" joiningFeePatterns "joining fee" low
  let card := feeField card "annual_fee" annualFeePatterns "annual fee" low
  let card := match firstGroup false rewardsPatterns low with
    | some v => card.insert "rewards" (some (collapseWs v))
    | none => card
  let card := match firstGroup false cashbackPatterns low with
    | some v => card.insert "cashback" (some (collapseWs v))
    | none => card
  let card := match firstGroup false offersPatterns low with
    | some v => card.insert "offers" (some (collapseWs v))
    | none => card
  let card := match reGroup1 false travelPat low with
    | some v => card.insert "travel_benefits" (some (pstrip v))
    | none => card
  let card := match reGroup1 false insurancePat low with
    | some v => card.insert "insurance" (some (pstrip v))
    | none => card
  let card := match reGroup1 false loungePat low with
    | some v => card.insert "lounge_access" (some (pstrip v))
    | none => card
  let card := match reGroup1 false foreignFeePat low with
    | some v => card.insert "foreign_transaction_fee" (some (pstrip v))
    | none => card
  card

/-- The record extracted from one card-relevant PDF section (the body of
the `if re.search(...)` block of `_extract_cards_from_pdf_text`): field
extraction followed by the null-fill pass. -/
def sectionCard (sec : String) : Card :=
  nullFilledFields.foldl nullFill (sectionFields sec)

/-- The records contributed by one blank-line-delimited section: nothing
for a non-card-relevant section; the extracted record when it has a truthy
`card_name`; nothing otherwise. -/
def sectionCards (sec : String) : List Card :=
  if reTest false relevancePat (pyLower sec) then
    let card := sectionCard sec
    if card.getTruthy "card_name" then [card] else []
  else []

/-- The split pattern `r'\n\s*\n+'`. -/
def splitPat : RE := .cat (.ch '\n') (.cat (.starC .spacec) (.plusC (.one '\n')))

/-- `_extract_cards_from_pdf_text`: split the text on blank lines and
append each section's records in order (no deduplication). -/
def extractCardsFromPdfText (text : String) : List Card :=
  (reSplit splitPat text).foldl (fun acc s => acc ++ sectionCards s) []

/-! ## A BeautifulSoup DOM model

A parsed document is a tree of elements (tag, raw `class` attribute,
children) and text nodes.  Nodes are addressed by child-index paths from
the root so that the `.parent` / `.next_sibling` navigation used by
`_extract_card_from_container` can be expressed. -/

/-- DOM node: an element or a `NavigableString`. -/
inductive Node where
  | text : String → Node
  | elem : String → Option String → List Node → Node
deriving Repr

/-- Child-index path from a root node. -/
abbrev Path := List Nat

/-- Children of a node. -/
def Node.children : Node → List Node
  | .text _ => []
  | .elem _ _ cs => cs

/-- Subtree at a path. -/
def nodeAt : Node → Path → Option Node
  | n, [] => some n
  | n, i :: p =>
    match n.children[i]? with
    | some c => nodeAt c p
    | none => none

mutual

/-- `tag.text`: concatenation of all contained strings. -/
def Node.innerText : Node → String
  | .text s => s
  | .elem _ _ cs => innerTextL cs

/-- Concatenated text of a forest (document order). -/
def innerTextL : List Node → String
  | [] => ""
  | c :: rest => c.innerText ++ innerTextL rest

end

mutual

/-- The stripped strings contributed by one node: its own stripped text
for a non-blank text node, the union over children for an element. -/
def sStrings : Node → List String
  | .text s => if pstrip s = "" then [] else [pstrip s]
  | .elem _ _ cs => strippedL cs

/-- Stripped strings of a forest. -/
def strippedL : List Node → List String
  | [] => []
  | c :: rest => sStrings c ++ strippedL rest

end

/-- `tag.stripped_strings`: every descendant string, stripped, skipping
the ones that strip to empty. -/
def strippedStrings (n : Node) : List String := strippedL n.children

mutual

/-- Relative paths of all descendants of a node (the node itself
excluded), in document order — the iteration order of `find_all`. -/
def Node.descPaths : Node → List Path
  | .text _ => []
  | .elem _ _ cs => descPathsL cs 0

/-- Paths of all descendants of a forest whose first tree has child index
`i`, in document (pre-)order. -/
def descPathsL : List Node → Nat → List Path
  | [], _ => []
  | c :: rest, i =>
    [i] :: (c.descPaths.map (i :: ·) ++ descPathsL rest (i + 1))

end

/-- `find_all` with a node predicate: paths of all matching descendants in
document order. -/
def findAll (n : Node) (pred : Node → Bool) : List Path :=
  n.descPaths.filter fun p =>
    match nodeAt n p with
    | some m => pred m
    | none => false

/-- First descendant text node satisfying a predicate
(`find(text=lambda …)`). -/
def findTextPath (n : Node) (pred : String → Bool) : Option Path :=
  (n.descPaths.filter fun p =>
    match nodeAt n p with
    | some (.text s) => pred s
    | _ => false).head?

/-- Is the node an element with one of the given tags? -/
def tagIn (tags : List String) : Node → Bool
  | .elem t _ _ => tags.any fun x => x = t
  | .text _ => false

/-- `tag.string`: the single contained string — descending through
unique children — or nothing. -/
def Node.string? : Node → Option String
  | .text s => some s
  | .elem _ _ [c] => c.string?
  | .elem _ _ _ => none

/-- The path of the next sibling (last index bumped). -/
def bumpLast : Path → Path
  | [] => []
  | [i] => [i + 1]
  | i :: rest => i :: bumpLast rest

/-- `parentNode.next_sibling` seen from the root: `none` for the root
itself or when the parent is its parent's last child. -/
def sibOf (root : Node) (parentPath : Path) : Option Node :=
  if parentPath.isEmpty then none else nodeAt root (bumpLast parentPath)

/-- Proper ancestor paths of `p`, nearest (longest) first. -/
def ancestorPaths (p : Path) : List Path :=
  (List.range p.length).reverse.map fun i => p.take i

/-- `find_parent([tags...])`: nearest ancestor element with a matching
tag. -/
def findParentTag (root : Node) (p : Path) (tags : List String) : Option Path :=
  (ancestorPaths p).findSome? fun q =>
    match nodeAt root q with
    | some m => if tagIn tags m then some q else none
    | none => none

/-- `' '.join(strings)`. -/
def joinSpace : List String → String
  | [] => ""
  | [s] => s
  | s :: rest => s ++ " " ++ joinSpace rest

/-! ## `_extract_card_from_container` -/

/-- The name-bearing tags searched first for `card_name`. -/
def nameTags : List String := ["h1", "h2", "h3", "h4", "h5", "strong", "b"]

/-- The `card_name` fallback: first stripped string containing "card"
(case-insensitively) and shorter than 100 characters. -/
def nameFromStrings (container : Node) : Card :=
  match (strippedStrings container).find? (fun t =>
      subIn "card" (pyLower t) && t.length < 100) with
  | some t => Card.insert [] "card_name" (some (pstrip t))
  | none => []

/-- The `card_name` extraction: text of the first heading/strong/b
descendant when it strips non-empty, the stripped-strings fallback
otherwise. -/
def nameStep (container : Node) : Card :=
  match (findAll container (tagIn nameTags)).head? with
  | some rp =>
    match nodeAt container rp with
    | some nt =>
      if pstrip nt.innerText ≠ "" then
        Card.insert [] "card_name" (some (pstrip nt.innerText))
      else nameFromStrings container
    | none => nameFromStrings container
  | none => nameFromStrings container

/-- `bank_keywords`. -/
def bankKeywords : List String := ["bank", "issuer", "issuing bank"]

/-- The `issuing_bank` loop: for each keyword, find the first text node
containing it; the value is the stripped next sibling of that node's
parent.  A tag sibling raises (`.strip()` on a Tag — `AttributeError`),
a missing or empty sibling moves on to the next keyword. -/
def bankLoop (root container : Node) (p : Path) (card : Card) :
    List String → Except Unit Card
  | [] => .ok card
  | kw :: rest =>
    match findTextPath container (fun s => s ≠ "" && subIn kw (pyLower s)) with
    | none => bankLoop root container p card rest
    | some rp =>
      match sibOf root ((p ++ rp).dropLast) with
      | none => bankLoop root container p card rest
      | some (.text s) =>
        if s ≠ "" then .ok (card.insert "issuing_bank" (some (pstrip s)))
        else bankLoop root container p card rest
      | some (.elem _ _ _) => .error ()

/-- The HTML fee capture `([₹$]?[\d,]+)`. -/
def htmlFeeValue : RE := .grp (.cat (.opt (.cls curC)) (.plusC (.un .digitc (.one ','))))

/-- HTML `fee_patterns['joining_fee']`: `r'joining fee[:\s]*([₹$]?[\d,]+)'`,
`r'joining[:\s]*([₹$]?[\d,]+)'`. -/
def htmlJoiningPatterns : List RE :=
  [ .cat (lit "joining fee") (.cat colonSpaceStar htmlFeeValue),
    .cat (lit "joining") (.cat colonSpaceStar htmlFeeValue) ]

/-- HTML `fee_patterns['annual_fee']`: `r'annual fee[:\s]*([₹$]?[\d,]+)'`,
`r'annual[:\s]*([₹$]?[\d,]+)'`. -/
def htmlAnnualPatterns : List RE :=
  [ .cat (lit "annual fee") (.cat colonSpaceStar htmlFeeValue),
    .cat (lit "annual") (.cat colonSpaceStar htmlFeeValue) ]

/-- The HTML fee loop: for each pattern in order, scan the stripped
strings and keep the first capture (no normalization on the HTML path). -/
def htmlFeeLoop (texts : List String) (card : Card) (feeType : String) :
    List RE → Card
  | [] => card
  | pat :: rest =>
    match texts.findSome? (fun t => reGroup1 false pat (pyLower t)) with
    | some v => card.insert feeType (some (pstrip v))
    | none => htmlFeeLoop texts card feeType rest

/-- rewards/cashback/offers on the HTML path: find the first text node
containing the keyword and join all stripped strings of its parent. -/
def keywordJoin (root container : Node) (p : Path) (card : Card)
    (key kw : String) : Card :=
  match findTextPath container (fun s => s ≠ "" && subIn kw (pyLower s)) with
  | none => card
  | some rp =>
    match nodeAt root ((p ++ rp).dropLast) with
    | none => card
    | some parent =>
      card.insert key (some (pstrip (joinSpace (strippedStrings parent))))

/-- `_extract_card_from_container` for the container at path `p` of
`root`: `none` when no card name is discoverable. -/
def extractCardFromContainer (root : Node) (p : Path) :
    Except Unit (Option Card) :=
  match nodeAt root p with
  | none => .ok none
  | some container =>
    let card := nameStep container
    if !card.hasKey "card_name" then .ok none
    else
      match bankLoop root container p card bankKeywords with
      | .error e => .error e
      | .ok card =>
        let texts := strippedStrings container
        let card := htmlFeeLoop texts card "joining_fee" htmlJoiningPatterns
        let card := htmlFeeLoop texts card "annual_fee" htmlAnnualPatterns
        let card := keywordJoin root container p card "rewards" "reward"
        let card := keywordJoin root container p card "cashback" "cashback"
        let card := keywordJoin root container p card "offers" "offer"
        .ok (some card)

/-! ## `_extract_cards_from_table` -/

/-- The assumed header order when a table has no header cells. -/
def defaultHeaders : List String :=
  ["card_name", "issuing_bank", "joining_fee", "annual_fee", "rewards",
   "cashback", "offers"]

/-- Field key for a (lowercased) header label, by the source's substring
cascade. -/
def headerKey (h : String) : String :=
  if subIn "card" h || subIn "name" h then "card_name"
  else if subIn "bank" h || subIn "issuer" h then "issuing_bank"
  else if subIn "join" h then "joining_fee"
  else if subIn "annual" h then "annual_fee"
  else if subIn "reward" h then "rewards"
  else if subIn "cash" h then "cashback"
  else if subIn "offer" h || subIn "benefit" h then "offers"
  else h

/-- Map the cells of one row onto the headers positionally (cells beyond
the headers are dropped, as in `if i < len(headers)`). -/
def rowCard : Card → List String → List String → Card
  | card, _, [] => card
  | card, [], _ :: _ => card
  | card, h :: hs, cell :: cs =>
    rowCard (card.insert (headerKey h) (some (pstrip cell))) hs cs

/-- Cell texts (`.text`) of all `th`/`td` descendants of a row. -/
def cellTexts (row : Node) : List String :=
  (findAll row (tagIn ["td", "th"])).filterMap fun cp =>
    (nodeAt row cp).map Node.innerText

/-- Header labels read from the first `tr`: `th/td` texts, stripped and
lowercased. -/
def tableHeaders (table : Node) : List String :=
  match (findAll table (tagIn ["tr"])).head? with
  | some hrp =>
    match nodeAt table hrp with
    | some hr => (cellTexts hr).map fun t => pyLower (pstrip t)
    | none => []
  | none => []

/-- A data row's record, kept only when non-empty with a truthy
`card_name`. -/
def rowToCard (headers : List String) (table : Node) (rp : Path) :
    Option Card :=
  match nodeAt table rp with
  | none => none
  | some row =>
    let card := rowCard [] headers (cellTexts row)
    if !card.isEmpty && card.getTruthy "card_name" then some card else none

/-- `_extract_cards_from_table`: headers from the first row (or the
assumed order), every later `tr` mapped positionally. -/
def extractCardsFromTable (table : Node) : List Card :=
  let trPaths := findAll table (tagIn ["tr"])
  let headers := tableHeaders table
  let headers := if headers.isEmpty then defaultHeaders else headers
  let rows := if !headers.isEmpty then trPaths.drop 1 else trPaths
  rows.foldl (fun cards rp =>
    match rowToCard headers table rp with
    | some card => cards ++ [card]
    | none => cards) []

/-! ## `_extract_cards_from_html` -/

/-- `if card and card not in self.cards: self.cards.append(card)`. -/
def appendIfNew (cards : List Card) (card : Card) : List Card :=
  if !card.isEmpty && !(cards.any fun e => cardEquiv card e) then
    cards ++ [card]
  else cards

/-- Method 1 predicate: a `div`/`section` whose class attribute contains
"card" or "product" (case-insensitively); the raw attribute string is
tested, absent attributes never match. -/
def containerClassPred : Node → Bool
  | .elem t c _ =>
    (t = "div" || t = "section") &&
      (match c with
       | some cl => subIn "card" (pyLower cl) || subIn "product" (pyLower cl)
       | none => false)
  | .text _ => false

/-- Method 2 predicate: an `h1`-`h5` whose `.string` contains "card" or
"credit". -/
def headingPred (n : Node) : Bool :=
  tagIn ["h1", "h2", "h3", "h4", "h5"] n &&
    (match n.string? with
     | some s => s ≠ "" && (subIn "card" (pyLower s) || subIn "credit" (pyLower s))
     | none => false)

/-- Fallback predicate: a `div`/`p`/`section` whose `.string` contains
"annual fee", "reward", or "cashback". -/
def fallbackPred (n : Node) : Bool :=
  tagIn ["div", "p", "section"] n &&
    (match n.string? with
     | some s => s ≠ "" && (subIn "annual fee" (pyLower s) ||
         subIn "reward" (pyLower s) || subIn "cashback" (pyLower s))
     | none => false)

/-- The container loop (Method 1). -/
def processContainers (root : Node) : List Path → List Card → Except Unit (List Card)
  | [], cards => .ok cards
  | p :: rest, cards =>
    match extractCardFromContainer root p with
    | .error e => .error e
    | .ok none => processContainers root rest cards
    | .ok (some card) => processContainers root rest (appendIfNew cards card)

/-- The heading loop (Method 2) and the fallback loop share this shape:
find the `div`/`section` parent of each matched node and extract from it. -/
def processViaParent (root : Node) : List Path → List Card → Except Unit (List Card)
  | [], cards => .ok cards
  | hp :: rest, cards =>
    match findParentTag root hp ["div", "section"] with
    | none => processViaParent root rest cards
    | some pp =>
      match extractCardFromContainer root pp with
      | .error e => .error e
      | .ok none => processViaParent root rest cards
      | .ok (some card) => processViaParent root rest (appendIfNew cards card)

/-- The table loop (Method 3). -/
def processTables (root : Node) : List Path → List Card → List Card
  | [], cards => cards
  | tp :: rest, cards =>
    let tcards :=
      match nodeAt root tp with
      | some t => extractCardsFromTable t
      | none => []
    processTables root rest (tcards.foldl appendIfNew cards)

/-- `_extract_cards_from_html`: the three strategies in order, then the
text-block fallback when nothing was found.  The `domain` argument is
threaded but (as in the source) never used. -/
def extractCardsFromHtml (soup : Node) (domain : String) :
    Except Unit (List Card) :=
  let containerPs := findAll soup containerClassPred
  let headingPs := findAll soup headingPred
  let tablePs := findAll soup (tagIn ["table"])
  match processContainers soup containerPs [] with
  | .error e => .error e
  | .ok cards =>
    match processViaParent soup headingPs cards with
    | .error e => .error e
    | .ok cards =>
      let cards := processTables soup tablePs cards
      if cards.isEmpty then
        processViaParent soup (findAll soup fallbackPred) cards
      else .ok cards

/-! ## `extract` (top-level dispatch) -/

/-- The `ValueError` message for an unsupported source. -/
def msgValueError : String := "Source must be a URL or a PDF file"

/-- The error standing in for the HTML path's possible `AttributeError`. -/
def msgAttributeError : String := "AttributeError"

/-- `urlparse(url).netloc` (enough of it for this program: the domain is
computed and passed on but never used by the HTML extractor). -/
def urlDomain (url : String) : String :=
  match url.splitOn "//" with
  | _ :: rest :: _ => ⟨rest.data.takeWhile (· ≠ '/')⟩
  | _ => ""

/-- `extract(source)`: URL sources go to the HTML path (fetching modelled
by the `fetchHtml` oracle), `.pdf` sources to the PDF path (text
extraction and OCR modelled by the `readPdfText`/`ocrPdf` oracles, with
the under-100-character OCR fallback), anything else raises the
`ValueError` immediately. -/
def extract (fetchHtml : String → Node) (readPdfText ocrPdf : String → String)
    (source : String) : Except String (List Card) :=
  if pyStartsWith source "http://" || pyStartsWith source "https://" then
    match extractCardsFromHtml (fetchHtml source) (urlDomain source) with
    | .ok cards => .ok cards
    | .error _ => .error msgAttributeError
  else if pyEndsWith (pyLower source) ".pdf" then
    let text := readPdfText source
    let text := if (pstrip text).length < 100 then ocrPdf source else text
    .ok (extractCardsFromPdfText text)
  else .error msgValueError

/-! ## Helper lemmas: dict operations -/

theorem find_insert_self (c : Card) (k : String) (v : Option String) :
    (c.insert k v).find k = some v := by
  induction c with
  | nil => simp [Card.insert, Card.find]
  | cons kv rest ih =>
    by_cases h : kv.1 = k
    · simp [Card.insert, h, Card.find]
    · simpa [Card.insert, h, Card.find] using ih

theorem find_insert_other (c : Card) (k k' : String) (v : Option String)
    (h : k ≠ k') : (c.insert k v).find k' = c.find k' := by
  have h' : k' ≠ k := Ne.symm h
  induction c with
  | nil => simp [Card.insert, Card.find, h, h']
  | cons kv rest ih =>
    by_cases hk : kv.1 = k
    · simp [Card.insert, hk, Card.find, h, h']
    · by_cases hk' : kv.1 = k'
      · simp [Card.insert, hk, Card.find, hk', h, h']
      · simpa [Card.insert, hk, Card.find, hk'] using ih

theorem hasKey_insert_self (c : Card) (k : String) (v : Option String) :
    (c.insert k v).hasKey k = true := by
  simp [Card.hasKey, find_insert_self]

theorem hasKey_insert_mono (c : Card) (k k' : String) (v : Option String)
    (h : c.hasKey k' = true) : (c.insert k v).hasKey k' = true := by
  by_cases hk : k = k'
  · subst hk; exact hasKey_insert_self c k v
  · simpa [Card.hasKey, find_insert_other c k k' v hk] using h

theorem getTruthy_insert_other (c : Card) (k k' : String) (v : Option String)
    (h : k ≠ k') : (c.insert k v).getTruthy k' = c.getTruthy k' := by
  simp [Card.getTruthy, find_insert_other c k k' v h]

theorem nullFill_hasKey_self (c : Card) (f : String) :
    (nullFill c f).hasKey f = true := by
  unfold nullFill
  by_cases h : c.hasKey f = true
  · simp [h]
  · simp [h, hasKey_insert_self]

theorem nullFill_hasKey_mono (c : Card) (f g : String)
    (h : c.hasKey g = true) : (nullFill c f).hasKey g = true := by
  unfold nullFill
  by_cases hf : c.hasKey f = true
  · simp [hf, h]
  · simp [hf, hasKey_insert_mono _ _ _ _ h]

/-- After the null-fill pass, each of the five fields is present. -/
theorem fiveFill_hasKey (card : Card) (f : String)
    (hf : f ∈ nullFilledFields) :
    (nullFilledFields.foldl nullFill card).hasKey f = true := by
  simp only [nullFilledFields, List.mem_cons, List.not_mem_nil, or_false] at hf
  simp only [nullFilledFields, List.foldl]
  rcases hf with h | h | h | h | h
  all_goals subst h
  · exact nullFill_hasKey_mono _ _ _ <| nullFill_hasKey_mono _ _ _ <|
      nullFill_hasKey_mono _ _ _ <| nullFill_hasKey_mono _ _ _ <|
      nullFill_hasKey_self _ _
  · exact nullFill_hasKey_mono _ _ _ <| nullFill_hasKey_mono _ _ _ <|
      nullFill_hasKey_mono _ _ _ <| nullFill_hasKey_self _ _
  · exact nullFill_hasKey_mono _ _ _ <| nullFill_hasKey_mono _ _ _ <|
      nullFill_hasKey_self _ _
  · exact nullFill_hasKey_mono _ _ _ <| nullFill_hasKey_self _ _
  · exact nullFill_hasKey_self _ _

theorem cardEquiv_comm (a b : Card) : cardEquiv a b = cardEquiv b a := by
  simp [cardEquiv, Bool.and_comm]

/-! ## Helper lemmas: `pstrip` -/

theorem dropWhile_twice (p : Char → Bool) (l : List Char) :
    (l.dropWhile p).dropWhile p = l.dropWhile p := by
  induction l with
  | nil => simp
  | cons a l ih =>
    by_cases h : p a
    · simpa [List.dropWhile_cons, h] using ih
    · simp [List.dropWhile_cons, h]

theorem trimR_trimR (l : List Char) : trimR (trimR l) = trimR l := by
  unfold trimR
  rw [List.reverse_reverse, dropWhile_twice]

theorem dropWhile_sfx (p : Char → Bool) (l : List Char) :
    l.dropWhile p <:+ l := by
  induction l with
  | nil => simp
  | cons a l ih =>
    by_cases h : p a
    · simpa [List.dropWhile_cons, h] using ih.trans (List.suffix_cons a l)
    · simp [List.dropWhile_cons, h]

theorem trimR_pfx (l : List Char) : trimR l <+: l := by
  have h := dropWhile_sfx pySpace l.reverse
  have h2 := List.reverse_prefix.mpr h
  simpa [trimR] using h2

theorem trimL_eq_self_of_head (l : List Char)
    (h : ∀ a rest, l = a :: rest → pySpace a = false) : trimL l = l := by
  cases l with
  | nil => simp [trimL]
  | cons a rest => simp [trimL, List.dropWhile_cons, h a rest rfl]

theorem trimL_head (l : List Char) :
    ∀ a rest, trimL l = a :: rest → pySpace a = false := by
  induction l with
  | nil => intro a rest h; simp [trimL] at h
  | cons x xs ih =>
    intro a rest h
    by_cases hx : pySpace x
    · exact ih a rest (by simpa [trimL, List.dropWhile_cons, hx] using h)
    · simp [trimL, List.dropWhile_cons, hx] at h
      rw [← h.1]
      simpa using hx

theorem pstripL_idem (l : List Char) : pstripL (pstripL l) = pstripL l := by
  unfold pstripL
  have hL : trimL (trimR (trimL l)) = trimR (trimL l) := by
    apply trimL_eq_self_of_head
    intro a rest h
    rcases trimR_pfx (trimL l) with ⟨t, ht⟩
    exact trimL_head l a (rest ++ t) (by rw [← ht, h]; simp)
  rw [hL, trimR_trimR]

theorem pstrip_idem (s : String) : pstrip (pstrip s) = pstrip s := by
  simp [pstrip, pstripL_idem]

/-- Every stripped string contributed by a node is a fixed point of
`pstrip` and is non-empty. -/
theorem mem_sStrings (n : Node) : ∀ t ∈ sStrings n, pstrip t = t ∧ t ≠ "" := by
  refine @Node.rec (fun n => ∀ t ∈ sStrings n, pstrip t = t ∧ t ≠ "")
    (fun l => ∀ t ∈ strippedL l, pstrip t = t ∧ t ≠ "") ?_ ?_ ?_ ?_ n
  · intro s t ht
    rw [sStrings] at ht
    split at ht
    · cases ht
    · next hs =>
      rw [List.mem_singleton.mp ht]
      exact ⟨pstrip_idem s, hs⟩
  · intro _ _ cs ih t ht
    rw [sStrings] at ht
    exact ih t ht
  · intro t ht
    cases ht
  · intro hd tl ihh iht t ht
    rw [strippedL] at ht
    rcases List.mem_append.mp ht with h | h
    · exact ihh t h
    · exact iht t h

/-- Every stripped string of a forest is a fixed point of `pstrip` and is
non-empty. -/
theorem mem_strippedL (l : List Node) (t : String)
    (h : t ∈ strippedL l) : pstrip t = t ∧ t ≠ "" := by
  have := mem_sStrings (Node.elem "" none l) t
  rw [sStrings] at this
  exact this h

/-! ## Helper lemmas: the append-if-new accumulation -/

theorem appendIfNew_mem (cards : List Card) (card c : Card)
    (h : c ∈ appendIfNew cards card) : c ∈ cards ∨ c = card := by
  unfold appendIfNew at h
  split at h
  · rcases List.mem_append.mp h with h' | h'
    · exact .inl h'
    · exact .inr (List.mem_singleton.mp h')
  · exact .inl h

/-- The guarded append keeps the result pairwise non-equal (in the
`dict ==` sense). -/
theorem appendIfNew_pairwise (cards : List Card) (card : Card)
    (h : cards.Pairwise fun a b => cardEquiv a b = false) :
    (appendIfNew cards card).Pairwise fun a b => cardEquiv a b = false := by
  unfold appendIfNew
  split
  · next hg =>
    rw [List.pairwise_append]
    refine ⟨h, List.pairwise_singleton _ _, ?_⟩
    intro a ha b hb
    rw [List.mem_singleton.mp hb]
    have hnone := (Bool.and_eq_true _ _ |>.mp hg).2
    rw [Bool.not_eq_true', List.any_eq_false] at hnone
    rw [cardEquiv_comm]
    simpa using hnone a ha
  · exact h

theorem mem_foldl_appendIfNew (l : List Card) :
    ∀ (acc : List Card) (c : Card), c ∈ l.foldl appendIfNew acc →
      c ∈ acc ∨ c ∈ l := by
  induction l with
  | nil => intro acc c h; exact .inl h
  | cons x xs ih =>
    intro acc c h
    rcases ih _ c h with h' | h'
    · rcases appendIfNew_mem _ _ _ h' with h'' | h''
      · exact .inl h''
      · exact .inr (by rw [h'']; exact List.mem_cons_self x xs)
    · exact .inr (List.mem_cons_of_mem x h')

theorem pairwise_foldl_appendIfNew (l : List Card) :
    ∀ acc : List Card, (acc.Pairwise fun a b => cardEquiv a b = false) →
      (l.foldl appendIfNew acc).Pairwise fun a b => cardEquiv a b = false := by
  induction l with
  | nil => intro acc h; exact h
  | cons x xs ih => intro acc h; exact ih _ (appendIfNew_pairwise _ _ h)

/-! ## Helper lemmas: membership in the extraction results -/

theorem mem_foldl_append {α β : Type} (f : β → List α) (l : List β) :
    ∀ (acc : List α) (c : α), c ∈ l.foldl (fun a s => a ++ f s) acc →
      c ∈ acc ∨ ∃ s ∈ l, c ∈ f s := by
  induction l with
  | nil => intro acc c h; exact .inl h
  | cons x xs ih =>
    intro acc c h
    rcases ih _ c h with h' | ⟨s, hs, hc⟩
    · rcases List.mem_append.mp h' with h'' | h''
      · exact .inl h''
      · exact .inr ⟨x, List.mem_cons_self x xs, h''⟩
    · exact .inr ⟨s, List.mem_cons_of_mem x hs, hc⟩

theorem mem_extractCardsFromPdfText (text : String) (c : Card)
    (h : c ∈ extractCardsFromPdfText text) :
    ∃ sec ∈ reSplit splitPat text, c ∈ sectionCards sec := by
  rcases mem_foldl_append sectionCards (reSplit splitPat text) [] c h with h' | h'
  · cases h'
  · exact h'

theorem mem_sectionCards (sec : String) (c : Card)
    (h : c ∈ sectionCards sec) :
    c = sectionCard sec ∧ c.getTruthy "card_name" = true := by
  unfold sectionCards at h
  split at h
  · dsimp only at h
    split at h
    · next hg => rw [List.mem_singleton.mp h]; exact ⟨rfl, hg⟩
    · cases h
  · cases h

/-! ## Helper lemmas: shapes of the container-extraction steps -/

/-- All values bound in a card are real strings (no null marker). -/
def valsSome (c : Card) : Prop := ∀ kv ∈ c, kv.2.isSome = true

theorem valsSome_insert (c : Card) (k : String) (v : String)
    (h : valsSome c) : valsSome (c.insert k (some v)) := by
  induction c with
  | nil =>
    intro kv hkv
    rw [List.mem_singleton.mp hkv]
    rfl
  | cons x rest ih =>
    intro kv hkv
    rw [Card.insert] at hkv
    split at hkv
    · rcases List.mem_cons.mp hkv with h' | h'
      · rw [h']; rfl
      · exact h kv (List.mem_cons_of_mem x h')
    · rcases List.mem_cons.mp hkv with h' | h'
      · exact h kv (h' ▸ List.mem_cons_self x rest)
      · exact ih (fun y hy => h y (List.mem_cons_of_mem x hy)) kv h'

/-- The name step yields either nothing or a single non-empty
`card_name` binding. -/
theorem nameStep_shape (container : Node) :
    nameStep container = [] ∨
      ∃ v, nameStep container = [("card_name", some v)] ∧ v ≠ "" := by
  have hnf : nameFromStrings container = [] ∨
      ∃ v, nameFromStrings container = [("card_name", some v)] ∧ v ≠ "" := by
    unfold nameFromStrings
    split
    · next t ht =>
      refine .inr ⟨pstrip t, rfl, ?_⟩
      have hmem := List.mem_of_find?_eq_some ht
      have hst := mem_strippedL container.children t
        (by simpa [strippedStrings] using hmem)
      rw [hst.1]
      exact hst.2
    · exact .inl rfl
  unfold nameStep
  split
  · split
    · split
      · next hne => exact .inr ⟨_, rfl, hne⟩
      · exact hnf
    · exact hnf
  · exact hnf

theorem valsSome_nameStep (container : Node) : valsSome (nameStep container) := by
  rcases nameStep_shape container with hs | ⟨v, hs, _⟩ <;> rw [hs]
  · exact fun kv hkv => by cases hkv
  · intro kv hkv
    rw [List.mem_singleton.mp hkv]
    rfl

theorem bankLoop_shape (root container : Node) (p : Path) :
    ∀ (kws : List String) (card card' : Card),
      bankLoop root container p card kws = .ok card' →
      card' = card ∨ ∃ v, card' = card.insert "issuing_bank" (some v) := by
  intro kws
  induction kws with
  | nil =>
    intro card card' h
    rw [bankLoop] at h
    exact .inl (Except.ok.inj h).symm
  | cons kw rest ih =>
    intro card card' h
    rw [bankLoop] at h
    split at h
    · exact ih card card' h
    · split at h
      · exact ih card card' h
      · split at h
        · exact .inr ⟨_, (Except.ok.inj h).symm⟩
        · exact ih card card' h
      · cases h

theorem htmlFeeLoop_shape (texts : List String) (feeType : String) :
    ∀ (pats : List RE) (card : Card),
      htmlFeeLoop texts card feeType pats = card ∨
        ∃ v, htmlFeeLoop texts card feeType pats = card.insert feeType (some v) := by
  intro pats
  induction pats with
  | nil => intro card; exact .inl (by rw [htmlFeeLoop])
  | cons pat rest ih =>
    intro card
    rw [htmlFeeLoop]
    split
    · exact .inr ⟨_, rfl⟩
    · exact ih card

theorem keywordJoin_shape (root container : Node) (p : Path) (card : Card)
    (key kw : String) :
    keywordJoin root container p card key kw = card ∨
      ∃ v, keywordJoin root container p card key kw = card.insert key (some v) := by
  unfold keywordJoin
  split
  · exact .inl rfl
  · split
    · exact .inl rfl
    · exact .inr ⟨_, rfl⟩

theorem shape_getTruthy (card c2 : Card) (k tgt : String)
    (h : c2 = card ∨ ∃ v, c2 = card.insert k (some v)) (hk : k ≠ tgt) :
    c2.getTruthy tgt = card.getTruthy tgt := by
  rcases h with h | ⟨v, h⟩
  · rw [h]
  · rw [h, getTruthy_insert_other _ _ _ _ hk]

theorem shape_valsSome (card c2 : Card) (k : String)
    (h : c2 = card ∨ ∃ v, c2 = card.insert k (some v)) (hv : valsSome card) :
    valsSome c2 := by
  rcases h with h | ⟨v, h⟩
  · rw [h]; exact hv
  · rw [h]; exact valsSome_insert _ _ _ hv

/-- When the name step found a key, the bound name is truthy (non-empty). -/
theorem nameStep_truthy (container : Node)
    (h : (nameStep container).hasKey "card_name" = true) :
    (nameStep container).getTruthy "card_name" = true := by
  rcases nameStep_shape container with hs | ⟨v, hs, hv⟩
  · rw [hs] at h
    simp [Card.hasKey, Card.find] at h
  · rw [hs]
    simp [Card.getTruthy, Card.find]
    exact hv

/-- A record returned by `_extract_card_from_container` has a truthy
`card_name`. -/
theorem container_truthy (root : Node) (p : Path) (c : Card)
    (h : extractCardFromContainer root p = .ok (some c)) :
    c.getTruthy "card_name" = true := by
  unfold extractCardFromContainer at h
  split at h
  · simp at h
  · next container hat =>
    dsimp only at h
    split at h
    · simp at h
    · next hkey =>
      split at h
      · cases h
      · next card1 hbank =>
        have hc := Option.some.inj (Except.ok.inj h)
        have hks : (nameStep container).hasKey "card_name" = true := by
          simpa using hkey
        have h0 := nameStep_truthy container hks
        have h1 := shape_getTruthy _ _ _ "card_name"
          (bankLoop_shape root container p bankKeywords (nameStep container) card1 hbank)
          (by decide)
        have h2 := shape_getTruthy _ _ _ "card_name"
          (htmlFeeLoop_shape (strippedStrings container) "joining_fee"
            htmlJoiningPatterns card1) (by decide)
        have h3 := shape_getTruthy _ _ _ "card_name"
          (htmlFeeLoop_shape (strippedStrings container) "annual_fee"
            htmlAnnualPatterns
            (htmlFeeLoop (strippedStrings container) card1 "joining_fee"
              htmlJoiningPatterns)) (by decide)
        have h4 := shape_getTruthy _ _ _ "card_name"
          (keywordJoin_shape root container p
            (htmlFeeLoop (strippedStrings container)
              (htmlFeeLoop (strippedStrings container) card1 "joining_fee"
                htmlJoiningPatterns) "annual_fee" htmlAnnualPatterns)
            "rewards" "reward") (by decide)
        have h5 := shape_getTruthy _ _ _ "card_name"
          (keywordJoin_shape root container p
            (keywordJoin root container p
              (htmlFeeLoop (strippedStrings container)
                (htmlFeeLoop (strippedStrings container) card1 "joining_fee"
                  htmlJoiningPatterns) "annual_fee" htmlAnnualPatterns)
              "rewards" "reward")
            "cashback" "cashback") (by decide)
        have h6 := shape_getTruthy _ _ _ "card_name"
          (keywordJoin_shape root container p
            (keywordJoin root container p
              (keywordJoin root container p
                (htmlFeeLoop (strippedStrings container)
                  (htmlFeeLoop (strippedStrings container) card1 "joining_fee"
                    htmlJoiningPatterns) "annual_fee" htmlAnnualPatterns)
                "rewards" "reward")
              "cashback" "cashback")
            "offers" "offer") (by decide)
        rw [← hc, h6, h5, h4, h3, h2, h1, h0]

/-- A record returned by `_extract_card_from_container` binds every field
to a real string: the HTML path never writes the null marker. -/
theorem container_valsSome (root : Node) (p : Path) (c : Card)
    (h : extractCardFromContainer root p = .ok (some c)) : valsSome c := by
  unfold extractCardFromContainer at h
  split at h
  · simp at h
  · next container hat =>
    dsimp only at h
    split at h
    · simp at h
    · split at h
      · cases h
      · next card1 hbank =>
        have hc := Option.some.inj (Except.ok.inj h)
        have h0 := valsSome_nameStep container
        have h1 := shape_valsSome _ _ _
          (bankLoop_shape root container p bankKeywords (nameStep container) card1 hbank) h0
        have h2 := shape_valsSome _ _ _
          (htmlFeeLoop_shape (strippedStrings container) "joining_fee"
            htmlJoiningPatterns card1) h1
        have h3 := shape_valsSome _ _ _
          (htmlFeeLoop_shape (strippedStrings container) "annual_fee"
            htmlAnnualPatterns
            (htmlFeeLoop (strippedStrings container) card1 "joining_fee"
              htmlJoiningPatterns)) h2
        have h4 := shape_valsSome _ _ _
          (keywordJoin_shape root container p
            (htmlFeeLoop (strippedStrings container)
              (htmlFeeLoop (strippedStrings container) card1 "joining_fee"
                htmlJoiningPatterns) "annual_fee" htmlAnnualPatterns)
            "rewards" "reward") h3
        have h5 := shape_valsSome _ _ _
          (keywordJoin_shape root container p
            (keywordJoin root container p
              (htmlFeeLoop (strippedStrings container)
                (htmlFeeLoop (strippedStrings container) card1 "joining_fee"
                  htmlJoiningPatterns) "annual_fee" htmlAnnualPatterns)
              "rewards" "reward")
            "cashback" "cashback") h4
        have h6 := shape_valsSome _ _ _
          (keywordJoin_shape root container p
            (keywordJoin root container p
              (keywordJoin root container p
                (htmlFeeLoop (strippedStrings container)
                  (htmlFeeLoop (strippedStrings container) card1 "joining_fee"
                    htmlJoiningPatterns) "annual_fee" htmlAnnualPatterns)
                "rewards" "reward")
              "cashback" "cashback")
            "offers" "offer") h5
        rw [← hc]
        exact h6

/-! ## Helper lemmas: the table strategy -/

theorem rowCard_valsSome :
    ∀ (cs hs : List String) (card : Card), valsSome card →
      valsSome (rowCard card hs cs) := by
  intro cs
  induction cs with
  | nil =>
    intro hs card h
    cases hs <;> (rw [rowCard]; exact h)
  | cons cell cs ih =>
    intro hs card h
    cases hs with
    | nil => rw [rowCard]; exact h
    | cons hh hs => rw [rowCard]; exact ih hs _ (valsSome_insert _ _ _ h)

theorem rowToCard_truthy (headers : List String) (table : Node) (rp : Path)
    (c : Card) (h : rowToCard headers table rp = some c) :
    c.getTruthy "card_name" = true := by
  unfold rowToCard at h
  split at h
  · cases h
  · dsimp only at h
    split at h
    · next hg =>
      rw [← Option.some.inj h]
      exact (Bool.and_eq_true _ _ |>.mp hg).2
    · cases h

theorem rowToCard_valsSome (headers : List String) (table : Node) (rp : Path)
    (c : Card) (h : rowToCard headers table rp = some c) : valsSome c := by
  unfold rowToCard at h
  split at h
  · cases h
  · dsimp only at h
    split at h
    · rw [← Option.some.inj h]
      exact rowCard_valsSome _ _ _ (fun kv hkv => by cases hkv)
    · cases h

theorem mem_rowFold (headers : List String) (t : Node) (rows : List Path) :
    ∀ (acc : List Card) (c : Card),
      c ∈ rows.foldl (fun cards rp =>
        match rowToCard headers t rp with
        | some card => cards ++ [card]
        | none => cards) acc →
      c ∈ acc ∨ ∃ rp, rowToCard headers t rp = some c := by
  induction rows with
  | nil => intro acc c h; exact .inl h
  | cons rp rest ih =>
    intro acc c h
    rcases ih _ c h with h' | h'
    · dsimp only at h'
      rcases hm : rowToCard headers t rp with _ | card
      · rw [hm] at h'
        exact .inl h'
      · rw [hm] at h'
        rcases List.mem_append.mp h' with h'' | h''
        · exact .inl h''
        · exact .inr ⟨rp, by rw [hm, List.mem_singleton.mp h'']⟩
    · exact .inr h'

theorem mem_extractCardsFromTable (t : Node) (c : Card)
    (h : c ∈ extractCardsFromTable t) :
    ∃ headers rp, rowToCard headers t rp = some c := by
  unfold extractCardsFromTable at h
  dsimp only at h
  rcases mem_rowFold _ t _ [] c h with h' | ⟨rp, hrp⟩
  · cases h'
  · exact ⟨_, rp, hrp⟩

/-! ## Helper lemmas: the HTML accumulation loops -/

theorem processContainers_pres (root : Node) (P : Card → Prop)
    (hcand : ∀ p c, extractCardFromContainer root p = .ok (some c) → P c) :
    ∀ (ps : List Path) (acc res : List Card),
      processContainers root ps acc = .ok res → (∀ c ∈ acc, P c) →
      ∀ c ∈ res, P c := by
  intro ps
  induction ps with
  | nil =>
    intro acc res h hacc
    rw [processContainers] at h
    rw [← Except.ok.inj h]
    exact hacc
  | cons p rest ih =>
    intro acc res h hacc
    rw [processContainers] at h
    split at h
    · cases h
    · exact ih _ _ h hacc
    · next card hp =>
      refine ih _ _ h ?_
      intro c hc
      rcases appendIfNew_mem _ _ _ hc with h' | h'
      · exact hacc c h'
      · exact h' ▸ hcand p card hp

theorem processViaParent_pres (root : Node) (P : Card → Prop)
    (hcand : ∀ p c, extractCardFromContainer root p = .ok (some c) → P c) :
    ∀ (ps : List Path) (acc res : List Card),
      processViaParent root ps acc = .ok res → (∀ c ∈ acc, P c) →
      ∀ c ∈ res, P c := by
  intro ps
  induction ps with
  | nil =>
    intro acc res h hacc
    rw [processViaParent] at h
    rw [← Except.ok.inj h]
    exact hacc
  | cons hp rest ih =>
    intro acc res h hacc
    rw [processViaParent] at h
    split at h
    · exact ih _ _ h hacc
    · next pp _ =>
      split at h
      · cases h
      · exact ih _ _ h hacc
      · next card hcp =>
        refine ih _ _ h ?_
        intro c hc
        rcases appendIfNew_mem _ _ _ hc with h' | h'
        · exact hacc c h'
        · exact h' ▸ hcand pp card hcp

theorem processTables_pres (root : Node) (P : Card → Prop)
    (htab : ∀ t c, c ∈ extractCardsFromTable t → P c) :
    ∀ (ps : List Path) (acc : List Card), (∀ c ∈ acc, P c) →
      ∀ c ∈ processTables root ps acc, P c := by
  intro ps
  induction ps with
  | nil =>
    intro acc hacc c hc
    rw [processTables] at hc
    exact hacc c hc
  | cons tp rest ih =>
    intro acc hacc c hc
    rw [processTables] at hc
    refine ih _ ?_ c hc
    intro c' hc'
    rcases mem_foldl_appendIfNew _ _ c' hc' with h' | h'
    · exact hacc c' h'
    · split at h'
      · next t _ => exact htab t c' h'
      · cases h'

/-- Pointwise preservation along the whole HTML pipeline. -/
theorem extractCardsFromHtml_pres (soup : Node) (domain : String)
    (P : Card → Prop)
    (hcand : ∀ p c, extractCardFromContainer soup p = .ok (some c) → P c)
    (htab : ∀ t c, c ∈ extractCardsFromTable t → P c)
    (cards : List Card) (h : extractCardsFromHtml soup domain = .ok cards) :
    ∀ c ∈ cards, P c := by
  unfold extractCardsFromHtml at h
  dsimp only at h
  split at h
  · cases h
  · next cs1 h1 =>
    split at h
    · cases h
    · next cs2 h2 =>
      have hp1 := processContainers_pres soup P hcand _ _ _ h1 (fun c hc => by cases hc)
      have hp2 := processViaParent_pres soup P hcand _ _ _ h2 hp1
      have hp3 := processTables_pres soup P htab
        (findAll soup (tagIn ["table"])) cs2 hp2
      split at h
      · exact processViaParent_pres soup P hcand _ _ _ h hp3
      · rw [← Except.ok.inj h]
        exact hp3

/-! ## Pairwise (dedup) preservation along the HTML pipeline -/

theorem processContainers_pairwise (root : Node) :
    ∀ (ps : List Path) (acc res : List Card),
      processContainers root ps acc = .ok res →
      (acc.Pairwise fun a b => cardEquiv a b = false) →
      res.Pairwise fun a b => cardEquiv a b = false := by
  intro ps
  induction ps with
  | nil =>
    intro acc res h hacc
    rw [processContainers] at h
    rw [← Except.ok.inj h]
    exact hacc
  | cons p rest ih =>
    intro acc res h hacc
    rw [processContainers] at h
    split at h
    · cases h
    · exact ih _ _ h hacc
    · exact ih _ _ h (appendIfNew_pairwise _ _ hacc)

theorem processViaParent_pairwise (root : Node) :
    ∀ (ps : List Path) (acc res : List Card),
      processViaParent root ps acc = .ok res →
      (acc.Pairwise fun a b => cardEquiv a b = false) →
      res.Pairwise fun a b => cardEquiv a b = false := by
  intro ps
  induction ps with
  | nil =>
    intro acc res h hacc
    rw [processViaParent] at h
    rw [← Except.ok.inj h]
    exact hacc
  | cons hp rest ih =>
    intro acc res h hacc
    rw [processViaParent] at h
    split at h
    · exact ih _ _ h hacc
    · split at h
      · cases h
      · exact ih _ _ h hacc
      · exact ih _ _ h (appendIfNew_pairwise _ _ hacc)

theorem processTables_pairwise (root : Node) :
    ∀ (ps : List Path) (acc : List Card),
      (acc.Pairwise fun a b => cardEquiv a b = false) →
      (processTables root ps acc).Pairwise fun a b => cardEquiv a b = false := by
  intro ps
  induction ps with
  | nil =>
    intro acc hacc
    rw [processTables]
    exact hacc
  | cons tp rest ih =>
    intro acc hacc
    rw [processTables]
    exact ih _ (pairwise_foldl_appendIfNew _ _ hacc)

/-- The whole HTML pipeline never holds two `dict ==`-equal records. -/
theorem extractCardsFromHtml_pairwise (soup : Node) (domain : String)
    (cards : List Card) (h : extractCardsFromHtml soup domain = .ok cards) :
    cards.Pairwise fun a b => cardEquiv a b = false := by
  unfold extractCardsFromHtml at h
  dsimp only at h
  split at h
  · cases h
  · next cs1 h1 =>
    split at h
    · cases h
    · next cs2 h2 =>
      have q1 := processContainers_pairwise soup _ _ _ h1 List.Pairwise.nil
      have q2 := processViaParent_pairwise soup _ _ _ h2 q1
      have q3 := processTables_pairwise soup (findAll soup (tagIn ["table"])) cs2 q2
      split at h
      · exact processViaParent_pairwise soup _ _ _ h q3
      · rw [← Except.ok.inj h]
        exact q3

/-! ## Helper lemmas: positional mapping of a table row -/

theorem rowCard_find_skip (key : String) :
    ∀ (hs cs : List String) (card : Card),
      (∀ (k : Nat) (hk : k < hs.length), k < cs.length →
        headerKey (hs.get ⟨k, hk⟩) ≠ key) →
      (rowCard card hs cs).find key = card.find key := by
  intro hs
  induction hs with
  | nil =>
    intro cs card _
    cases cs <;> rw [rowCard]
  | cons h hs ih =>
    intro cs card hno
    cases cs with
    | nil => rw [rowCard]
    | cons cell cs =>
      rw [rowCard]
      rw [ih cs _ ?_, find_insert_other]
      · exact hno 0 (by simp) (by simp)
      · intro k hk hkc
        exact hno (k + 1) (by simpa using Nat.succ_lt_succ hk)
          (by simpa using Nat.succ_lt_succ hkc)

theorem rowCard_find_at (key : String) :
    ∀ (hs cs : List String) (card : Card) (i : Nat) (hi : i < hs.length)
      (hic : i < cs.length),
      headerKey (hs.get ⟨i, hi⟩) = key →
      (∀ (k : Nat) (hk : k < hs.length), k < cs.length → k ≠ i →
        headerKey (hs.get ⟨k, hk⟩) ≠ key) →
      (rowCard card hs cs).find key =
        some (some (pstrip (cs.get ⟨i, hic⟩))) := by
  intro hs
  induction hs with
  | nil =>
    intro cs card i hi
    exact absurd hi (Nat.not_lt_zero i)
  | cons h hs ih =>
    intro cs card i hi hic hkey hno
    cases cs with
    | nil => exact absurd hic (Nat.not_lt_zero i)
    | cons cell cs =>
      rw [rowCard]
      cases i with
      | zero =>
        have hskip : ∀ (k : Nat) (hk : k < hs.length), k < cs.length →
            headerKey (hs.get ⟨k, hk⟩) ≠ key := by
          intro k hk hkc
          exact hno (k + 1) (Nat.succ_lt_succ hk) (Nat.succ_lt_succ hkc)
            (Nat.succ_ne_zero k)
        rw [rowCard_find_skip key hs cs _ hskip]
        rw [show (h :: hs).get ⟨0, hi⟩ = h from rfl] at hkey
        rw [hkey, find_insert_self]
        rfl
      | succ i' =>
        have hi' := Nat.lt_of_succ_lt_succ hi
        have hic' := Nat.lt_of_succ_lt_succ hic
        have hkey' : headerKey (hs.get ⟨i', hi'⟩) = key := hkey
        have hno' : ∀ (k : Nat) (hk : k < hs.length), k < cs.length → k ≠ i' →
            headerKey (hs.get ⟨k, hk⟩) ≠ key := by
          intro k hk hkc hne
          exact hno (k + 1) (Nat.succ_lt_succ hk) (Nat.succ_lt_succ hkc)
            (fun hcontra => hne (Nat.succ_injective hcontra))
        rw [ih cs _ i' hi' hic' hkey' hno']
        rfl

/-! ## Concrete documents and records used by the claims -/

/-- A `th` cell holding one string. -/
def thN (s : String) : Node := .elem "th" none [.text s]

/-- A `td` cell holding one string. -/
def tdN (s : String) : Node := .elem "td" none [.text s]

/-- The spec's end-to-end table: header `Card Name | Issuing Bank |
Annual Fee`, one data row `Gold Card | ABC Bank | $500`. -/
def scenTable : Node :=
  .elem "table" none
    [ .elem "tr" none [thN "Card Name", thN "Issuing Bank", thN "Annual Fee"],
      .elem "tr" none [tdN "Gold Card", tdN "ABC Bank", tdN "$500"] ]

/-- A document holding only `scenTable`. -/
def scenDoc : Node := .elem "[document]" none [scenTable]

/-- The record the scenario table yields. -/
def goldCard : Card :=
  [("card_name", some "Gold Card"), ("issuing_bank", some "ABC Bank"),
   ("annual_fee", some "$500")]

/-- A table whose second header also maps to `card_name` ("Nickname"
contains "name"), so its cell overwrites the `Card Name` cell. -/
def nickTable : Node :=
  .elem "table" none
    [ .elem "tr" none [thN "Card Name", thN "Nickname", thN "Annual Fee"],
      .elem "tr" none [tdN "Gold Card", tdN "Goldy", tdN "$500"] ]

/-- A document in which the container strategy (`div` with class "card")
and the heading strategy (`h2` containing "card", parent `div`) both
rediscover the same record. -/
def dupDoc : Node :=
  .elem "[document]" none
    [ .elem "div" (some "card") [.elem "h2" none [.text "Gold Card"]] ]

/-- The record the PDF path produces for the section `"Super Gold Card"`:
no bank pattern matches, so `issuing_bank` is absent while the five
null-filled fields are present. -/
def superGoldCard : Card :=
  [("card_name", some "Super Gold Card"), ("rewards", none),
   ("cashback", none), ("offers", none), ("joining_fee", none),
   ("annual_fee", none)]

/-- The spec's end-to-end PDF text block. -/
def c1Text : String :=
  "XYZ Platinum Credit Card\nABC Bank\nAnnual Fee: 500\nNo joining fee, waived"

/-- The record the code actually produces for `c1Text`. -/
def c1Record : Card :=
  [("card_name", some "XYZ Platinum Credit Card"),
   ("issuing_bank", some "XYZ Platinum Credit Card\nABC Bank"),
   ("joining_fee", some "$,"), ("annual_fee", some "$500"),
   ("rewards", none), ("cashback", none), ("offers", none)]

/-! ## The claims -/

/-- C1 (counterexample): on the spec's end-to-end PDF block the code does
NOT produce `issuing_bank = "ABC Bank"` and `joining_fee = "$0"`: the
greedy `([\w\s]+Bank)` match spans the preceding lines, and
`([₹$]?[\d,]+…)` captures the bare comma after "joining fee", so the
record holds `"XYZ Platinum Credit Card\nABC Bank"` and `"$,"` instead. -/
theorem c1_counterexample :
    extractCardsFromPdfText c1Text = [c1Record] ∧
    c1Record.find "joining_fee" = some (some "$,") ∧
    ¬("$," = "$0") ∧
    c1Record.find "issuing_bank" =
      some (some "XYZ Platinum Credit Card\nABC Bank") ∧
    ¬("XYZ Platinum Credit Card\nABC Bank" = "ABC Bank") := by
  decide

/-- C1 (amended): the PDF block `"XYZ Platinum Credit Card\nABC Bank\n
Annual Fee: 500\nNo joining fee, waived"` yields exactly one record, with
`card_name = "XYZ Platinum Credit Card"` (first card-name pattern),
`annual_fee = "$500"` (bare 500 gets the `$` prefix),
`issuing_bank = "XYZ Platinum Credit Card\nABC Bank"` (the greedy
`[\w\s]+Bank` match crosses newlines), and `joining_fee = "$,"` (the
comma after "joining fee" matches `[\d,]+`, so the waived→`$0` fallback
never runs); `rewards`, `cashback` and `offers` are null-filled. -/
theorem c1_amended :
    extractCardsFromPdfText c1Text = [c1Record] ∧
    c1Record.find "card_name" = some (some "XYZ Platinum Credit Card") ∧
    c1Record.find "annual_fee" = some (some "$500") := by
  decide

/-- C2 (counterexample): the PDF section `"Super Gold Card"` matches no
bank pattern and its record does NOT carry an `issuing_bank` key at all —
`issuing_bank` is not among the null-filled fields, refuting the claim
that every missing optional canonical field is present as a null
marker. -/
theorem c2_counterexample :
    extractCardsFromPdfText "Super Gold Card" = [superGoldCard] ∧
    superGoldCard.find "issuing_bank" = none := by
  decide

/-- C2 (amended): every PDF-derived record carries the five null-filled
fields `rewards`, `cashback`, `offers`, `joining_fee`, `annual_fee` as
present keys (bound to the null marker when nothing was extracted), while
`issuing_bank` may be absent; HTML-derived records never bind a null
marker — fields that were not extracted are simply omitted. -/
theorem c2_amended :
    (∀ (text : String) (c : Card), c ∈ extractCardsFromPdfText text →
        ∀ f ∈ nullFilledFields, c.hasKey f = true) ∧
    (∀ (soup : Node) (domain : String) (cards : List Card),
        extractCardsFromHtml soup domain = .ok cards →
        ∀ c ∈ cards, ∀ kv ∈ c, kv.2.isSome = true) := by
  constructor
  · intro text c hc f hf
    rcases mem_extractCardsFromPdfText text c hc with ⟨sec, _, hsec⟩
    rw [(mem_sectionCards sec c hsec).1]
    unfold sectionCard
    exact fiveFill_hasKey (sectionFields sec) f hf
  · intro soup domain cards h c hc kv hkv
    refine extractCardsFromHtml_pres soup domain valsSome ?_ ?_ cards h c hc kv hkv
    · exact fun p c' h' => container_valsSome soup p c' h'
    · intro t c' h'
      rcases mem_extractCardsFromTable t c' h' with ⟨hs, rp, hr⟩
      exact rowToCard_valsSome hs t rp c' hr

/-- C2 (witness): the amended statement applied at the concrete section
`"Super Gold Card"` (PDF side) and the concrete document `dupDoc`
(HTML side). -/
theorem c2_witness :
    superGoldCard.hasKey "rewards" = true ∧
    (("card_name", some "Gold Card") : String × Option String).2.isSome = true := by
  constructor
  · exact c2_amended.1 "Super Gold Card" superGoldCard (by decide)
      "rewards" (by decide)
  · exact c2_amended.2 dupDoc "example.com" [[("card_name", some "Gold Card")]]
      (by decide) [("card_name", some "Gold Card")] (by decide)
      ("card_name", some "Gold Card") (by decide)

/-- C3: whenever a PDF fee pattern captures a value, the field is stored
as `normalizeFee` of the stripped capture; and the normalization sends
`"0"`, `"$0"` and `"₹0"` to exactly `"$0"`, prefixes `"$"` to any other
captured value lacking a leading `$`/`₹` marker, and keeps any other
marker-carrying value unchanged. -/
theorem c3_fee_normalization :
    (∀ (card : Card) (feeType label lowSection v : String) (pats : List RE),
      firstGroup false pats lowSection = some v →
      feeField card feeType pats label lowSection =
        card.insert feeType (some (normalizeFee (pstrip v)))) ∧
    ∀ v : String,
      ((v = "0" ∨ v = "$0" ∨ v = "₹0") → normalizeFee v = "$0") ∧
      (¬(v = "0" ∨ v = "$0" ∨ v = "₹0") →
        (pyStartsWith v "$" || pyStartsWith v "₹") = false →
        normalizeFee v = "$" ++ v) ∧
      (¬(v = "0" ∨ v = "$0" ∨ v = "₹0") →
        (pyStartsWith v "$" || pyStartsWith v "₹") = true →
        normalizeFee v = v) := by
  constructor
  · intro card feeType label lowSection v pats h
    unfold feeField
    rw [h]
  · intro v
    unfold normalizeFee
    refine ⟨fun h => by simp [h], fun h1 h2 => by simp [h1, h2],
      fun h1 h2 => by simp [h1, h2]⟩

/-- C3 (witness): the stored annual fee for the section text
`"annual fee: 500"`, and the three normalization clauses at `"₹0"`,
`"500"` and `"₹1,000"`. -/
theorem c3_witness :
    feeField [] "annual_fee" annualFeePatterns "annual fee" "annual fee: 500" =
      [("annual_fee", some "$500")] ∧
    normalizeFee "₹0" = "$0" ∧ normalizeFee "500" = "$500" ∧
    normalizeFee "₹1,000" = "₹1,000" :=
  ⟨c3_fee_normalization.1 [] "annual_fee" "annual fee" "annual fee: 500"
      "500" annualFeePatterns (by decide),
   (c3_fee_normalization.2 "₹0").1 (by decide),
   (c3_fee_normalization.2 "500").2.1 (by decide) (by decide),
   (c3_fee_normalization.2 "₹1,000").2.2 (by decide) (by decide)⟩

/-- C4: whenever the HTML extraction run returns a result set, no two of
its records are equal as Python dicts (field-for-field): the guarded
append (`card not in self.cards`) used by all four strategies never
admits a duplicate, so a record rediscovered by another strategy leaves
exactly one copy. -/
theorem c4_html_dedup (soup : Node) (domain : String) (cards : List Card)
    (h : extractCardsFromHtml soup domain = .ok cards) :
    cards.Pairwise fun a b => cardEquiv a b = false :=
  extractCardsFromHtml_pairwise soup domain cards h

/-- C4 (witness): in `dupDoc` the container strategy and the heading
strategy both discover `{card_name: "Gold Card"}`, and the result set
holds exactly one copy. -/
theorem c4_witness :
    extractCardsFromHtml dupDoc "example.com" =
      .ok [[("card_name", some "Gold Card")]] ∧
    ([[("card_name", some "Gold Card")]] : List Card).Pairwise
      (fun a b => cardEquiv a b = false) :=
  ⟨by decide, c4_html_dedup dupDoc "example.com" _ (by decide)⟩

/-- C5: the PDF path performs no deduplication: a text made of two
identical card-relevant sections yields two identical records. -/
theorem c5_pdf_no_dedup :
    extractCardsFromPdfText "Super Gold Card\n\nSuper Gold Card" =
      [superGoldCard, superGoldCard] := by
  decide

/-- C6: every record in a returned result set has a truthy (non-empty)
`card_name` — on the HTML container, HTML table and PDF section paths
alike a candidate without one produces no record. -/
theorem c6_card_name_required :
    (∀ (soup : Node) (domain : String) (cards : List Card),
        extractCardsFromHtml soup domain = .ok cards →
        ∀ c ∈ cards, c.getTruthy "card_name" = true) ∧
    (∀ (text : String) (c : Card), c ∈ extractCardsFromPdfText text →
        c.getTruthy "card_name" = true) := by
  constructor
  · intro soup domain cards h c hc
    refine extractCardsFromHtml_pres soup domain
      (fun c' => c'.getTruthy "card_name" = true) ?_ ?_ cards h c hc
    · exact fun p c' h' => container_truthy soup p c' h'
    · intro t c' h'
      rcases mem_extractCardsFromTable t c' h' with ⟨hs, rp, hr⟩
      exact rowToCard_truthy hs t rp c' hr
  · intro text c hc
    rcases mem_extractCardsFromPdfText text c hc with ⟨sec, _, hsec⟩
    exact (mem_sectionCards sec c hsec).2

/-- C6 (witness): the invariant applied at the concrete table document
`scenDoc` and at the PDF section `"Super Gold Card"`. -/
theorem c6_witness :
    goldCard.getTruthy "card_name" = true ∧
    superGoldCard.getTruthy "card_name" = true :=
  ⟨c6_card_name_required.1 scenDoc "example.com" [goldCard] (by decide)
      goldCard (by decide),
   c6_card_name_required.2 "Super Gold Card" superGoldCard (by decide)⟩

/-- C7: a blank-line-delimited PDF section that does not contain any of
the six card phrases (case-insensitively) contributes no record: the
per-section extraction returns nothing for it. -/
theorem c7_non_relevant_section (sec : String)
    (h : reTest false relevancePat (pyLower sec) = false) :
    sectionCards sec = [] := by
  simp [sectionCards, h]

/-- C7 (witness): the section `"hello world"` is not card-relevant and
produces no record. -/
theorem c7_witness :
    reTest false relevancePat (pyLower "hello world") = false ∧
    sectionCards "hello world" = [] :=
  ⟨by decide, c7_non_relevant_section "hello world" (by decide)⟩

/-- C8 (counterexample): the table with headers
`Card Name | Nickname | Annual Fee` and data row
`Gold Card | Goldy | $500` has a header row containing "Card Name" and
"Annual Fee", yet its record's `card_name` is `"Goldy"` — the "Nickname"
header also maps to `card_name` and its cell overwrites the
correspondingly-positioned "Card Name" cell `"Gold Card"`. -/
theorem c8_counterexample :
    tableHeaders nickTable = ["card name", "nickname", "annual fee"] ∧
    extractCardsFromTable nickTable =
      [[("card_name", some "Goldy"), ("annual_fee", some "$500")]] ∧
    ¬("Goldy" = "Gold Card") := by
  decide

/-- C8 (amended): when the "Card Name" and "Annual Fee" positions are the
ONLY headers mapping to `card_name`/`annual_fee` (no other header
contains "card"/"name" or "annual"), the row mapping binds `card_name`
and `annual_fee` to the stripped text of the correspondingly-positioned
cells, and the row survives the `card_name`-non-empty filter exactly when
that cell strips non-empty; in particular the end-to-end table scenario
yields exactly `{card_name: "Gold Card", issuing_bank: "ABC Bank",
annual_fee: "$500"}`. -/
theorem c8_amended :
    (∀ (hs cs : List String) (i j : Nat) (hi : i < hs.length)
        (hic : i < cs.length) (hj : j < hs.length) (hjc : j < cs.length),
      headerKey (hs.get ⟨i, hi⟩) = "card_name" →
      headerKey (hs.get ⟨j, hj⟩) = "annual_fee" →
      (∀ (k : Nat) (hk : k < hs.length), k < cs.length → k ≠ i →
        headerKey (hs.get ⟨k, hk⟩) ≠ "card_name") →
      (∀ (k : Nat) (hk : k < hs.length), k < cs.length → k ≠ j →
        headerKey (hs.get ⟨k, hk⟩) ≠ "annual_fee") →
      (rowCard [] hs cs).find "card_name" =
        some (some (pstrip (cs.get ⟨i, hic⟩))) ∧
      (rowCard [] hs cs).find "annual_fee" =
        some (some (pstrip (cs.get ⟨j, hjc⟩))) ∧
      ((rowCard [] hs cs).getTruthy "card_name" = true ↔
        ¬(pstrip (cs.get ⟨i, hic⟩) = ""))) ∧
    extractCardsFromHtml scenDoc "example.com" = .ok [goldCard] := by
  constructor
  · intro hs cs i j hi hic hj hjc hki hkj hui huj
    have hc := rowCard_find_at "card_name" hs cs [] i hi hic hki hui
    have ha := rowCard_find_at "annual_fee" hs cs [] j hj hjc hkj huj
    refine ⟨hc, ha, ?_⟩
    unfold Card.getTruthy
    rw [hc]
    simp
  · decide

/-- C8 (witness): the amended row mapping applied to the scenario's
header and cell texts. -/
theorem c8_witness :
    (rowCard [] ["card name", "issuing bank", "annual fee"]
        ["Gold Card", "ABC Bank", "$500"]).find "card_name" =
      some (some "Gold Card") ∧
    (rowCard [] ["card name", "issuing bank", "annual fee"]
        ["Gold Card", "ABC Bank", "$500"]).find "annual_fee" =
      some (some "$500") := by
  have h := c8_amended.1 ["card name", "issuing bank", "annual fee"]
    ["Gold Card", "ABC Bank", "$500"] 0 2 (by decide) (by decide) (by decide)
    (by decide) (by decide) (by decide) (by decide) (by decide)
  exact ⟨h.1, h.2.1⟩

/-- C9: `extract` returns the input-format `ValueError` — before any
fetching or parsing, for every choice of the fetch/read/OCR oracles —
exactly when the source neither starts with `http://` or `https://` nor
ends (case-insensitively) with `.pdf`. -/
theorem c9_input_format (fetchHtml : String → Node)
    (readPdfText ocrPdf : String → String) (source : String) :
    extract fetchHtml readPdfText ocrPdf source = .error msgValueError ↔
      (pyStartsWith source "http://" || pyStartsWith source "https://") = false ∧
        pyEndsWith (pyLower source) ".pdf" = false := by
  unfold extract
  split
  · next hurl =>
    constructor
    · intro h
      split at h
      · cases h
      · exact absurd (Except.error.inj h) (by decide)
    · rintro ⟨h1, -⟩
      rw [h1] at hurl
      cases hurl
  · next hurl =>
    have hurl' : (pyStartsWith source "http://" ||
        pyStartsWith source "https://") = false := by
      simpa using hurl
    split
    · next hpdf =>
      constructor
      · intro h
        exact Except.noConfusion h
      · rintro ⟨-, h2⟩
        rw [h2] at hpdf
        cases hpdf
    · next hpdf =>
      have hpdf' : pyEndsWith (pyLower source) ".pdf" = false := by
        simpa using hpdf
      exact ⟨fun _ => ⟨hurl', hpdf'⟩, fun _ => rfl⟩

/-- C10: PDF bank patterns are matched case-sensitively on the raw
section while card-name patterns are matched case-insensitively: the
card-relevant section `"super gold card from foo bank"` (every
bank-pattern keyword only lowercase) produces a record with no
`issuing_bank` key but with the lowercase `card_name`; capitalizing
"Bank" makes the bank pattern match. -/
theorem c10_bank_case_sensitivity :
    extractCardsFromPdfText "super gold card from foo bank" =
      [[("card_name", some "super gold card"), ("rewards", none),
        ("cashback", none), ("offers", none), ("joining_fee", none),
        ("annual_fee", none)]] ∧
    extractCardsFromPdfText "super gold card from foo Bank" =
      [[("card_name", some "super gold card"),
        ("issuing_bank", some "super gold card from foo Bank"),
        ("rewards", none), ("cashback", none), ("offers", none),
        ("joining_fee", none), ("annual_fee", none)]] := by
  decide

end Scraper
